/-
  Shallow embedding of `src/montyp_compiler.py` (the "Monthy" line compiler,
  class `MonthyCompiler`) and proofs about the claims of its specification.

  Modelling conventions:
  * Python `str` is modelled as `List Char`; `String.toList` bridges literals.
  * Python `int` is modelled as `Int` (the compiler's `indent` field).
  * Mutable compiler state is passed explicitly (`Compiler` structure).
  * Exceptions are modelled with `Except CError`; `raise type(e)(...)` keeps
    the kind and rebuilds the message, exactly like the source's re-raise.
  * The recursive `_compile_line` (inline if-then recursion) is defined with a
    fuel parameter so that it is structurally recursive and kernel-evaluable;
    the driver supplies fuel `raw.length + 1`, which always suffices because
    the nested statement of an inline if-then is strictly shorter than the
    line containing it (the "if", "then" keywords and separating blanks are
    consumed).  Running out of fuel yields a distinguished error kind that is
    unreachable from the driver.
  * The regex patterns of the source are implemented as direct recursive
    matchers reproducing Python `re` semantics (anchored match, lazy `(.+?)`,
    greedy `\s+`, case-insensitive keywords, `\b` word boundaries for the
    comparator substitutions).  All call sites of `_compile_line` first apply
    `str.strip()`, so matched lines never carry leading/trailing whitespace;
    the matchers are exact on such inputs, including the backtracking corner
    case where the lazily matched group of `^if\s+(.+?)\s+then\s+(.+)$` is a
    single whitespace character.
-/
import Mathlib

namespace Monthy

/-- Bridge from Lean string literals to the `List Char` model of Python `str`. -/
def str (s : String) : List Char := s.toList

/-- Python `str.rstrip()`: remove trailing whitespace. -/
def trimRight (s : List Char) : List Char :=
  (s.reverse.dropWhile Char.isWhitespace).reverse

/-- Python `str.strip()`: remove leading and trailing whitespace. -/
def pyStrip (s : List Char) : List Char :=
  trimRight (s.dropWhile Char.isWhitespace)

/-- Case-sensitive test that `pat` is an initial segment of `s`
    (used for the exact-substring searches of `str.partition`/`str.replace`). -/
def leadsWith : List Char → List Char → Bool
  | [], _ => true
  | _ :: _, [] => false
  | p :: ps, c :: cs => p == c && leadsWith ps cs

/-- Case-insensitive prefix stripping: `pat` is given in lowercase, input
    characters are lowered before comparison (models `re` with `re.I` on a
    literal keyword).  Returns the remainder after the keyword. -/
def stripPrefixCI : List Char → List Char → Option (List Char)
  | [], s => some s
  | _ :: _, [] => none
  | p :: ps, c :: cs => if c.toLower == p then stripPrefixCI ps cs else none

/-- Python `str.partition(tok)` restricted to a found separator: split `line`
    at the FIRST occurrence of `tok`, returning `(head, tail)`; `none` when
    `tok` does not occur (`tok` is nonempty at every call site). -/
def splitFirst (tok : List Char) : List Char → Option (List Char × List Char)
  | [] => none
  | c :: rest =>
    if leadsWith tok (c :: rest) then some ([], (c :: rest).drop tok.length)
    else
      match splitFirst tok rest with
      | some (h, t) => some (c :: h, t)
      | none => none

/-- Helper for `splitLines`; accumulates the current line in reverse. -/
def splitLinesAux : List Char → List Char → List (List Char)
  | [], acc => [acc.reverse]
  | '\n' :: [], acc => [acc.reverse]
  | '\n' :: rest, acc => acc.reverse :: splitLinesAux rest []
  | c :: rest, acc => splitLinesAux rest (c :: acc)

/-- Python `str.splitlines()` for newline-terminated text: `""` gives no
    lines, a trailing newline does not produce an extra empty line.
    (The exotic terminators `\r`, `\x0b`, ... that Python also splits at are
    not modelled; no claim depends on them.) -/
def splitLines : List Char → List (List Char)
  | [] => []
  | cs => splitLinesAux cs []

/-- Python `sep.join(items)`. -/
def joinSep (sep : List Char) : List (List Char) → List Char
  | [] => []
  | [x] => x
  | x :: xs => x ++ sep ++ joinSep sep xs

/-- Decimal digit character. -/
def digitChar (d : Nat) : Char := Char.ofNat (48 + d)

/-- Fuelled decimal rendering of a natural number (most significant first). -/
def natCharsF : Nat → Nat → List Char
  | 0, _ => []
  | fuel + 1, n =>
    if n < 10 then [digitChar n] else natCharsF fuel (n / 10) ++ [digitChar (n % 10)]

/-- Python `str(n)` for a nonnegative line index.  Fuel `n + 1` always
    suffices since `n / 10 < n` for `n ≥ 10`. -/
def natChars (n : Nat) : List Char := natCharsF (n + 1) n

/-- Quote-parity test of `_strip_comment` (line 24 of the source): the text
    before a candidate marker must contain an even number of `"` AND an even
    number of `'` characters. -/
def evenQuotes (head : List Char) : Bool :=
  (head.countP (fun c => c == '"')) % 2 == 0 &&
  (head.countP (fun c => c == '\'')) % 2 == 0

/-- One iteration of the `for token in ('#','//')` loop of `_strip_comment`:
    if `tok` occurs in `line`, partition at its first occurrence and, when the
    head has even quote parity, return the right-trimmed head; otherwise
    (marker absent, or parity odd) signal no result for this token. -/
def stripCommentTok (tok : List Char) (line : List Char) : Option (List Char) :=
  match splitFirst tok line with
  | some (head, _) => if evenQuotes head then some (trimRight head) else none
  | none => none

/-- `MonthyCompiler._strip_comment` (source lines 19–26): try `'#'`, then
    `"//"`; on the first token whose head passes the parity test return the
    right-trimmed head, else return the line unchanged. -/
def stripComment (line : List Char) : List Char :=
  match stripCommentTok (str "#") line with
  | some r => r
  | none =>
    match stripCommentTok (str "//") line with
    | some r => r
    | none => line

/-- Fuelled Python `str.replace(pat, rep)`: replace every non-overlapping
    occurrence of `pat`, scanning left to right and resuming after the
    replacement.  Each step consumes at least one input character, so fuel
    `s.length` is always sufficient for a nonempty pattern. -/
def replaceAllF (pat rep : List Char) : Nat → List Char → List Char
  | _, [] => []
  | 0, s => s
  | fuel + 1, c :: rest =>
    if !pat.isEmpty && leadsWith pat (c :: rest) then
      rep ++ replaceAllF pat rep fuel ((c :: rest).drop pat.length)
    else
      c :: replaceAllF pat rep fuel rest

/-- Python `s.replace(pat, rep)` for the nonempty patterns of the source. -/
def replaceAll (pat rep s : List Char) : List Char :=
  replaceAllF pat rep s.length s

/-- Python regex `\w` (ASCII range, as used by the comparator patterns). -/
def wordChar (c : Char) : Bool := c.isAlphanum || c == '_'

/-- Word-boundary test on the left of a match: position start, or previous
    character not a word character (all comparator patterns begin with a word
    character). -/
def boundaryOk : Option Char → Bool
  | none => true
  | some p => !wordChar p

/-- Word-boundary test on the right of a match: end of string, or next
    character not a word character (all comparator patterns end with a word
    character). -/
def tailBoundaryOk : List Char → Bool
  | [] => true
  | d :: _ => !wordChar d

/-- Fuelled `re.sub(pat, rep, s, flags=re.I)` for a literal lowercase pattern
    wrapped in `\b ... \b`: scan left to right over the ORIGINAL string,
    replace case-insensitive occurrences whose ends fall on word boundaries,
    resume after the matched segment. `prev` is the previously consumed
    original character (`none` at the start of the string). -/
def subWordF (pat rep : List Char) : Nat → Option Char → List Char → List Char
  | _, _, [] => []
  | 0, _, s => s
  | fuel + 1, prev, c :: rest =>
    if !pat.isEmpty && ciLeads pat (c :: rest) && boundaryOk prev &&
        tailBoundaryOk ((c :: rest).drop pat.length) then
      rep ++ subWordF pat rep fuel (some (((c :: rest).take pat.length).getLastD c))
        ((c :: rest).drop pat.length)
    else
      c :: subWordF pat rep fuel (some c) rest
where
  /-- Case-insensitive test that lowercase `pat` matches the start of `s`. -/
  ciLeads : List Char → List Char → Bool
    | [], _ => true
    | _ :: _, [] => false
    | p :: ps, c :: cs => c.toLower == p && ciLeads ps cs

/-- `re.sub(r'\b<pat>\b', rep, s, flags=re.I)` for the comparator patterns. -/
def subWord (pat rep s : List Char) : List Char :=
  subWordF pat rep s.length none s

/-- `WORD_OPS` (source line 7), in dict insertion order. -/
def WORD_OPS : List (List Char × List Char) :=
  [(str " plus ", str " + "), (str " minus ", str " - "),
   (str " times ", str " * "), (str " over ", str " / ")]

/-- `LITERALS` (source line 8), in dict insertion order. -/
def LITERALS : List (List Char × List Char) :=
  [(str " true ", str " True "), (str " false ", str " False "),
   (str " null ", str " None ")]

/-- `COMPARATORS` (source line 9), in SOURCE order: note that the source
    lists `equals` BEFORE `not equals`. -/
def COMPARATORS : List (List Char × List Char) :=
  [(str "is at least", str ">="), (str "is at most", str "<="),
   (str "is greater than", str ">"), (str "is less than", str "<"),
   (str "equals", str "=="), (str "not equals", str "!=")]

/-- `MonthyCompiler._tx_expr` (source lines 27–32): pad with spaces, apply
    the word-operator replacements, the comparator substitutions, the literal
    replacements, then strip. -/
def txExpr (expr : List Char) : List Char :=
  let s0 := ' ' :: expr ++ [' ']
  let s1 := WORD_OPS.foldl (fun s pr => replaceAll pr.1 pr.2 s) s0
  let s2 := COMPARATORS.foldl (fun s pr => subWord pr.1 pr.2 s) s1
  let s3 := LITERALS.foldl (fun s pr => replaceAll pr.1 pr.2 s) s2
  pyStrip s3

/-- The two escaping replacements of `_say_f` (source line 35), in source
    order: first double every backslash, then escape every double quote. -/
def escapeOnce (s : List Char) : List Char :=
  replaceAll (str "\"") (str "\\\"") (replaceAll (str "\\") (str "\\\\") s)

/-- Per-character form of "escaped exactly once": backslash becomes a doubled
    backslash, a double quote gains one backslash, everything else (braces in
    particular) is untouched.  `escapeOnce` is proved to coincide with mapping
    this over the string. -/
def escChar (c : Char) : List Char :=
  if c == '\\' then ['\\', '\\'] else if c == '"' then ['\\', c] else [c]

/-- Own concatMap (avoids version-dependent `List.flatMap`/`bind` lemma names). -/
def concatMap (f : Char → List Char) : List Char → List Char
  | [] => []
  | c :: rest => f c ++ concatMap f rest

/-- `re.fullmatch(r'end', line, flags=re.I)` (source line 53). -/
def matchEnd (line : List Char) : Bool :=
  line.map Char.toLower == str "end"

/-- `re.match(r'^say:\s*(.*)$', line, flags=re.I)` (source line 57): the
    group is the text after the keyword and any following whitespace. -/
def matchSayColon (line : List Char) : Option (List Char) :=
  match stripPrefixCI (str "say:") line with
  | some rest => some (rest.dropWhile Char.isWhitespace)
  | none => none

/-- Shared shape of `^<kw>\s+(.+)$` (the `say` and `return` rules): keyword,
    at least one whitespace, then a nonempty group running to the end of the
    line.  Exact for lines without trailing whitespace, which is all lines
    `_compile_line` classifies (every call site strips first). -/
def kwExpr (kw : List Char) (line : List Char) : Option (List Char) :=
  match stripPrefixCI kw line with
  | some rest =>
    match rest with
    | c :: _ =>
      if c.isWhitespace then
        let body := rest.dropWhile Char.isWhitespace
        if body.isEmpty then none else some body
      else none
    | [] => none
  | none => none

/-- `re.match(r'^say\s+(.+)$', line, flags=re.I)` (source line 60). -/
def matchSay (line : List Char) : Option (List Char) := kwExpr (str "say") line

/-- `re.match(r'^return\s+(.+)$', line, flags=re.I)` (source line 79). -/
def matchReturn (line : List Char) : Option (List Char) := kwExpr (str "return") line

/-- Suffix test for the inline if-then rule: the text after the lazily chosen
    condition must be `\s+then\s+(.+)$`; returns the (nonempty) nested
    statement.  Greedy `\s+` needs no backtracking here because `then` starts
    with a non-whitespace character. -/
def wsThenWsStmt (s : List Char) : Option (List Char) :=
  match s with
  | [] => none
  | c :: _ =>
    if c.isWhitespace then
      match stripPrefixCI (str "then") (s.dropWhile Char.isWhitespace) with
      | some r2 =>
        match r2 with
        | [] => none
        | d :: _ =>
          if d.isWhitespace then
            let stmt := r2.dropWhile Char.isWhitespace
            if stmt.isEmpty then none else some stmt
          else none
      | none => none
    else none

/-- Lazy `(.+?)` search: find the SHORTEST nonempty prefix `cond` of the
    input such that the suffix after it satisfies `p`; `acc` holds the prefix
    scanned so far.  This is exactly the order in which Python's lazy
    quantifier tries condition lengths. -/
def condSplit (p : List Char → Option α) : List Char → List Char → Option (List Char × α)
  | _, [] => none
  | acc, c :: rest =>
    match p rest with
    | some a => some (acc ++ [c], a)
    | none => condSplit p (acc ++ [c]) rest

/-- Shared shape of `^<kw>\s+(.+?)<suffix>$` with a lazy group: keyword, at
    least one whitespace, then the lazy search.  When no split of the
    whitespace-free remainder `R` succeeds, Python backtracks the leading
    `\s+` and can match a single whitespace character as the group (possible
    only when the whitespace run has length at least 3); this corner case is
    reproduced. -/
def lazyKw (kw : List Char) (p : List Char → Option α) (line : List Char) :
    Option (List Char × α) :=
  match stripPrefixCI kw line with
  | none => none
  | some rest =>
    match rest with
    | [] => none
    | c :: _ =>
      if c.isWhitespace then
        let W := rest.takeWhile Char.isWhitespace
        let R := rest.dropWhile Char.isWhitespace
        match condSplit p [] R with
        | some r => some r
        | none =>
          if 3 ≤ W.length then
            match p (W.drop (W.length - 1) ++ R) with
            | some a => some ((W.drop (W.length - 2)).take 1, a)
            | none => none
          else none
      else none

/-- `re.match(r'^if\s+(.+?)\s+then\s+(.+)$', line, flags=re.I)` (source
    line 63): returns `(condition, nested statement)`. -/
def matchIfThen (line : List Char) : Option (List Char × List Char) :=
  lazyKw (str "if") wsThenWsStmt line

/-- Suffix test for `(?::\s*|\s*)$` after a lazy group, on a line without
    trailing whitespace: the remainder must be empty or a lone colon. -/
def blockTail (s : List Char) : Option Unit :=
  if s.isEmpty || s == str ":" then some () else none

/-- `re.match(r'^if\s+(.+?)(?::\s*|\s*)$', line, flags=re.I)` (source
    line 68): returns the condition. -/
def matchIfBlock (line : List Char) : Option (List Char) :=
  match lazyKw (str "if") blockTail line with
  | some (cond, _) => some cond
  | none => none

/-- Suffix test for `\s+times(?:\s+do)?(?::\s*|\s*)$` after the lazy count
    group of the repeat rule, on a line without trailing whitespace. -/
def repeatTail (s : List Char) : Option Unit :=
  match s with
  | [] => none
  | c :: _ =>
    if c.isWhitespace then
      match stripPrefixCI (str "times") (s.dropWhile Char.isWhitespace) with
      | some rem =>
        if rem.isEmpty || rem == str ":" then some ()
        else
          match rem with
          | [] => none
          | d :: _ =>
            if d.isWhitespace then
              match stripPrefixCI (str "do") (rem.dropWhile Char.isWhitespace) with
              | some rem2 => if rem2.isEmpty || rem2 == str ":" then some () else none
              | none => none
            else none
      | none => none
    else none

/-- `re.match(r'^repeat\s+(.+?)\s+times(?:\s+do)?(?::\s*|\s*)$', line,
    flags=re.I)` (source line 71): returns the count expression. -/
def matchRepeat (line : List Char) : Option (List Char) :=
  match lazyKw (str "repeat") repeatTail line with
  | some (cnt, _) => some cnt
  | none => none

/-- First character of the identifier class `[A-Za-z_]`. -/
def identHead (c : Char) : Bool := c.isAlpha || c == '_'

/-- Continuation characters of the identifier class `[A-Za-z0-9_]`. -/
def identChar (c : Char) : Bool := identHead c || c.isDigit

/-- Helper for `wordsOf`: the current word is accumulated in reverse in
    `acc`; whitespace flushes it. -/
def wordsOfAux : List Char → List Char → List (List Char)
  | [], acc => if acc.isEmpty then [] else [acc.reverse]
  | c :: rest, acc =>
    if c.isWhitespace then
      if acc.isEmpty then wordsOfAux rest [] else acc.reverse :: wordsOfAux rest []
    else wordsOfAux rest (c :: acc)

/-- Python `str.split()` with no separator: split on whitespace runs,
    dropping empty pieces. -/
def wordsOf (s : List Char) : List (List Char) := wordsOfAux s []

/-- `re.match(r'^def\s+([A-Za-z_][A-Za-z0-9_]*)\s*(.*?)(?::\s*|\s*)$', line,
    flags=re.I)` (source line 74) combined with the argument splitting of
    line 76: returns the function name and the whitespace-separated argument
    words.  The lazily matched `(.*?)` strips exactly one trailing colon (on
    a line without trailing whitespace). -/
def matchDef (line : List Char) : Option (List Char × List (List Char)) :=
  match stripPrefixCI (str "def") line with
  | none => none
  | some rest =>
    match rest with
    | [] => none
    | c :: _ =>
      if c.isWhitespace then
        match rest.dropWhile Char.isWhitespace with
        | [] => none
        | d :: after =>
          if identHead d then
            let name := d :: after.takeWhile identChar
            let t := (after.dropWhile identChar).dropWhile Char.isWhitespace
            let argText := if t.getLastD ' ' == ':' then t.dropLast else t
            some (name, wordsOf (pyStrip argText))
          else none
      else none

/-- `re.match(r'^([A-Za-z_][A-Za-z0-9_]*)\s+is\s+(.+)$', line, flags=re.I)`
    (source line 82): returns `(identifier, expression)`. -/
def matchAssign (line : List Char) : Option (List Char × List Char) :=
  match line with
  | [] => none
  | c :: rest =>
    if identHead c then
      let ident := c :: rest.takeWhile identChar
      match rest.dropWhile identChar with
      | [] => none
      | d :: _ =>
        if d.isWhitespace then
          match stripPrefixCI (str "is")
              ((rest.dropWhile identChar).dropWhile Char.isWhitespace) with
          | some r2 =>
            match r2 with
            | [] => none
            | e :: _ =>
              if e.isWhitespace then
                let expr := r2.dropWhile Char.isWhitespace
                if expr.isEmpty then none else some (ident, expr)
              else none
          | none => none
        else none
    else none

/-- Error kinds: `SyntaxError` and `IndexError` as raised by the source;
    `fuelExhausted` is the modelling artifact of the fuelled recursion and is
    unreachable from `compile` (the nested statement of an inline if-then is
    strictly shorter than its line). -/
inductive ErrKind where
  | syntaxError
  | indexError
  | fuelExhausted
deriving DecidableEq

/-- A raised Python exception: its type and its `str(e)` message. -/
structure CError where
  kind : ErrKind
  msg : List Char
deriving DecidableEq

/-- The mutable state of a `MonthyCompiler` instance (source lines 12–16):
    configuration `indent_unit` plus the per-run fields `lines`, `indent`,
    `stack`.  The block stack keeps its top at the HEAD of the list (Python
    appends and pops at the end); joining for the MissingEnd message
    therefore reverses it. -/
structure Compiler where
  indentUnit : List Char
  lines : List (List Char)
  indent : Int
  stack : List (List Char)
deriving DecidableEq

/-- `MonthyCompiler(indent_unit)` — a fresh instance (source lines 12–16). -/
def mkMonthy (indentUnit : List Char) : Compiler :=
  ⟨indentUnit, [], 0, []⟩

/-- The indentation text `self.indent_unit * self.indent` (source line 18);
    Python string repetition by a negative count yields the empty string. -/
def indentText (st : Compiler) : List Char :=
  (List.replicate st.indent.toNat st.indentUnit).flatten

/-- `MonthyCompiler._emit` (source lines 17–18). -/
def emitLine (st : Compiler) (s : List Char) : Compiler :=
  { st with lines := st.lines ++ [indentText st ++ s] }

/-- `MonthyCompiler._say_f` (source lines 33–36). -/
def sayF (st : Compiler) (inner : List Char) : Compiler :=
  emitLine st (str "print(f\"" ++ escapeOnce (txExpr inner) ++ str "\")")

/-- The state after the opening half of an if rule (source lines 65 and 69):
    emit `if <cond>:` at the current indent, then increment the indent and
    push the `if` tag. -/
def ifOpen (st : Compiler) (cond : List Char) : Compiler :=
  { emitLine st (str "if " ++ txExpr cond ++ str ":") with
    indent := st.indent + 1, stack := str "if" :: st.stack }

/-- `MonthyCompiler._compile_line` (source lines 47–85), fuelled.  The rules
    are tried in source order: end, interpolated say, plain say, inline
    if-then (recursing on the stripped nested statement), block if, repeat,
    def, return, assignment, raw passthrough of the unstripped line. -/
def compileLineF : Nat → Compiler → List Char → Except CError Compiler
  | 0, _, _ => .error ⟨.fuelExhausted, []⟩
  | fuel + 1, st, raw =>
    let line0 := pyStrip raw
    if line0.isEmpty then .ok st else
    let line := stripComment line0
    if line.isEmpty then .ok st else
    if matchEnd line then
      match st.stack with
      | [] => .error ⟨.syntaxError, str "'end' with no open block"⟩
      | _ :: rest => .ok { st with stack := rest, indent := st.indent - 1 }
    else
    match matchSayColon line with
    | some inner => .ok (sayF st inner)
    | none =>
    match matchSay line with
    | some e => .ok (emitLine st (str "print(" ++ txExpr e ++ str ")"))
    | none =>
    match matchIfThen line with
    | some (cond, stmt) =>
      match compileLineF fuel (ifOpen st cond) (pyStrip stmt) with
      | .error err => .error err
      | .ok st2 =>
        match st2.stack with
        | [] => .error ⟨.indexError, str "pop from empty list"⟩
        | _ :: rest => .ok { st2 with stack := rest, indent := st2.indent - 1 }
    | none =>
    match matchIfBlock line with
    | some cond => .ok (ifOpen st cond)
    | none =>
    match matchRepeat line with
    | some cnt =>
      .ok { emitLine st (str "for _ in range(int(" ++ txExpr cnt ++ str ")):") with
            indent := st.indent + 1, stack := str "repeat" :: st.stack }
    | none =>
    match matchDef line with
    | some (name, args) =>
      .ok { emitLine st (str "def " ++ name ++ str "(" ++ joinSep (str ", ") args
              ++ str "):") with
            indent := st.indent + 1, stack := str "def" :: st.stack }
    | none =>
    match matchReturn line with
    | some e => .ok (emitLine st (str "return " ++ txExpr e))
    | none =>
    match matchAssign line with
    | some (ident, e) => .ok (emitLine st (ident ++ str " = " ++ txExpr e))
    | none => .ok (emitLine st raw)

/-- `_compile_line` with its always-sufficient fuel. -/
def compileLine (st : Compiler) (raw : List Char) : Except CError Compiler :=
  compileLineF (raw.length + 1) st raw

/-- The `for idx, raw in enumerate(...)` loop of `compile` (source
    lines 39–44), without the message decoration: process lines in order,
    stopping at the first exception and reporting it with its 1-based index. -/
def runLines : Compiler → Nat → List (List Char) → Compiler × Option (CError × Nat)
  | c, _, [] => (c, none)
  | c, idx, l :: rest =>
    match compileLine c l with
    | .ok c' => runLines c' (idx + 1) rest
    | .error e => (c, some (e, idx))

/-- The filename label `filename or '<string>'` (source line 43): `None` and
    the empty string both fall back to `<string>`. -/
def fnLabel : Option (List Char) → List Char
  | none => str "<string>"
  | some f => if f.isEmpty then str "<string>" else f

/-- `raise type(e)(f"{e} (at {where})")` (source lines 43–44): same exception
    type, decorated message. -/
def decorate (e : CError) (fn : Option (List Char)) (idx : Nat) : CError :=
  ⟨e.kind, e.msg ++ str " (at " ++ fnLabel fn ++ str ":" ++ natChars idx ++ str ")"⟩

/-- `MonthyCompiler.compile` (source lines 37–46): reset the per-run state,
    process the lines, decorate any exception with the filename label and
    1-based line number, raise `SyntaxError` listing the still-open blocks
    (outermost first, joined by `' > '`) when the stack is nonempty after the
    loop, otherwise return the emitted lines joined by newlines with a
    trailing newline.  The second component is the instance state after the
    call (Python objects keep their fields after `compile` returns or
    raises). -/
def compile (c : Compiler) (source : List Char) (fn : Option (List Char)) :
    Except CError (List Char) × Compiler :=
  let c0 : Compiler := { c with lines := [], indent := 0, stack := [] }
  match runLines c0 1 (splitLines source) with
  | (c1, some (e, idx)) => (.error (decorate e fn idx), c1)
  | (c1, none) =>
    if c1.stack.isEmpty then (.ok (joinSep ['\n'] c1.lines ++ ['\n']), c1)
    else
      (.error ⟨.syntaxError,
        str "Missing 'end' for: " ++ joinSep (str " > ") c1.stack.reverse⟩, c1)

/-- Syntactic characterization of a line whose processing has no net effect
    on the block stack and the indent level, mirroring the dispatch order of
    `_compile_line`: blank and comment-only lines, the two say forms, return,
    assignment, raw passthrough, and an inline if-then whose (stripped)
    nested statement is itself such a line.  An `end`, a block if, a repeat
    or a def is not neutral.  The fuel follows `compileLineF`. -/
def plainLine : Nat → List Char → Bool
  | 0, _ => false
  | fuel + 1, raw =>
    let line0 := pyStrip raw
    if line0.isEmpty then true else
    let line := stripComment line0
    if line.isEmpty then true else
    if matchEnd line then false else
    if (matchSayColon line).isSome then true else
    if (matchSay line).isSome then true else
    match matchIfThen line with
    | some (_, stmt) => plainLine fuel (pyStrip stmt)
    | none =>
      if (matchIfBlock line).isSome then false else
      if (matchRepeat line).isSome then false else
      if (matchDef line).isSome then false else true

/-- A (comment-stripped, stripped) line that the dispatcher classifies as a
    block opener: block if, repeat or def, and none of the earlier rules. -/
def isOpenerLine (line : List Char) : Bool :=
  !line.isEmpty && !matchEnd line && (matchSayColon line).isNone &&
  (matchSay line).isNone && (matchIfThen line).isNone &&
  ((matchIfBlock line).isSome || (matchRepeat line).isSome || (matchDef line).isSome)

/-- Bracket balance of the opener/end lines of an input, starting from open
    depth `d`, where every line that is neither an opener nor an `end` must
    be neutral in the sense of `plainLine` (fuel as supplied by
    `compileLine`).  This is the amended well-formedness condition of C6. -/
def wellFormedLines : Nat → List (List Char) → Bool
  | d, [] => d == 0
  | d, l :: ls =>
    let line := stripComment (pyStrip l)
    if matchEnd line then decide (0 < d) && wellFormedLines (d - 1) ls
    else if isOpenerLine line then wellFormedLines (d + 1) ls
    else plainLine (l.length + 1) l && wellFormedLines d ls

/-- Naive bracket balance as claim C6 reads it: block-opening lines (block
    if, repeat, def) must be matched by `end` lines, all other lines —
    inline if-then lines included — are treated as neutral. -/
def naiveBalanced : Nat → List (List Char) → Bool
  | d, [] => d == 0
  | d, l :: ls =>
    let line := stripComment (pyStrip l)
    if matchEnd line then decide (0 < d) && naiveBalanced (d - 1) ls
    else if isOpenerLine line then naiveBalanced (d + 1) ls
    else naiveBalanced d ls

/-
  Helper lemmas.
-/

theorem leadsWith_eq {tok s : List Char} (h : leadsWith tok s = true) :
    s = tok ++ s.drop tok.length := by
  induction tok generalizing s with
  | nil => simp
  | cons p ps ih =>
    cases s with
    | nil => simp [leadsWith] at h
    | cons c cs =>
      simp only [leadsWith, Bool.and_eq_true, beq_iff_eq] at h
      obtain ⟨rfl, h2⟩ := h
      simpa using ih h2

theorem splitFirst_eq {tok l head tail : List Char}
    (h : splitFirst tok l = some (head, tail)) : l = head ++ tok ++ tail := by
  induction l generalizing head tail with
  | nil => simp [splitFirst] at h
  | cons c rest ih =>
    simp only [splitFirst] at h
    split at h
    case isTrue hl =>
      obtain ⟨rfl, rfl⟩ := by simpa using h
      simpa using leadsWith_eq hl
    case isFalse hl =>
      cases hsp : splitFirst tok rest with
      | none => rw [hsp] at h; simp at h
      | some pr =>
        rw [hsp] at h
        obtain ⟨h1, rfl⟩ := by simpa using h
        cases pr with
        | mk h' t' =>
          simp only at h1
          subst h1
          simpa using ih hsp

theorem stripPrefixCI_head {p : Char} {ps l r : List Char}
    (h : stripPrefixCI (p :: ps) l = some r) :
    ∃ c t, l = c :: t ∧ c.toLower = p := by
  cases l with
  | nil => simp [stripPrefixCI] at h
  | cons c t =>
    simp only [stripPrefixCI] at h
    split at h
    case isTrue hc => exact ⟨c, t, rfl, by simpa using hc⟩
    case isFalse => simp at h

theorem stripPrefixCI_none {p : Char} {ps : List Char} {c : Char} {t : List Char}
    (h : (c.toLower == p) = false) : stripPrefixCI (p :: ps) (c :: t) = none := by
  simp [stripPrefixCI, h]

theorem compileLineF_shape : ∀ (fuel : Nat) (st : Compiler) (raw : List Char)
    (st' : Compiler), compileLineF fuel st raw = .ok st' →
    st'.indentUnit = st.indentUnit ∧
      (st.indent = (st.stack.length : Int) → st'.indent = (st'.stack.length : Int)) := by
  intro fuel
  induction fuel with
  | zero => intro st raw st' hok; simp [compileLineF] at hok
  | succ fuel ih =>
    intro st raw st' hok
    simp only [compileLineF] at hok
    by_cases h0 : ((pyStrip raw).isEmpty = true)
    · rw [if_pos h0] at hok
      injection hok with h; subst h; exact ⟨rfl, id⟩
    rw [if_neg h0] at hok
    by_cases h1 : ((stripComment (pyStrip raw)).isEmpty = true)
    · rw [if_pos h1] at hok
      injection hok with h; subst h; exact ⟨rfl, id⟩
    rw [if_neg h1] at hok
    by_cases h2 : (matchEnd (stripComment (pyStrip raw)) = true)
    · rw [if_pos h2] at hok
      cases hstack : st.stack with
      | nil => simp only [hstack] at hok; exact Except.noConfusion hok
      | cons tg rest =>
        simp only [hstack] at hok
        injection hok with h; subst h
        refine ⟨rfl, fun hinv => ?_⟩
        show st.indent - 1 = (rest.length : Int)
        simp only [List.length_cons] at hinv
        omega
    rw [if_neg h2] at hok
    cases hsc : matchSayColon (stripComment (pyStrip raw)) with
    | some inner =>
      simp only [hsc] at hok
      injection hok with h; subst h; exact ⟨rfl, id⟩
    | none =>
    simp only [hsc] at hok
    cases hsy : matchSay (stripComment (pyStrip raw)) with
    | some e =>
      simp only [hsy] at hok
      injection hok with h; subst h; exact ⟨rfl, id⟩
    | none =>
    simp only [hsy] at hok
    cases hit : matchIfThen (stripComment (pyStrip raw)) with
    | some pr =>
      obtain ⟨cond, stmt⟩ := pr
      simp only [hit] at hok
      cases hrec : compileLineF fuel (ifOpen st cond) (pyStrip stmt) with
      | error err => simp only [hrec] at hok; exact Except.noConfusion hok
      | ok st2 =>
        simp only [hrec] at hok
        obtain ⟨hu2, hi2⟩ := ih (ifOpen st cond) (pyStrip stmt) st2 hrec
        cases hs2 : st2.stack with
        | nil => simp only [hs2] at hok; exact Except.noConfusion hok
        | cons tg rest =>
          simp only [hs2] at hok
          injection hok with h; subst h
          refine ⟨hu2, fun hinv => ?_⟩
          show st2.indent - 1 = (rest.length : Int)
          have hinv1 : (ifOpen st cond).indent = ((ifOpen st cond).stack.length : Int) := by
            show st.indent + 1 = (((str "if") :: st.stack).length : Int)
            simp only [List.length_cons]
            omega
          have h2' := hi2 hinv1
          rw [hs2] at h2'
          simp only [List.length_cons] at h2'
          omega
    | none =>
    simp only [hit] at hok
    cases hib : matchIfBlock (stripComment (pyStrip raw)) with
    | some cond =>
      simp only [hib] at hok
      injection hok with h; subst h
      refine ⟨rfl, fun hinv => ?_⟩
      show st.indent + 1 = (((str "if") :: st.stack).length : Int)
      simp only [List.length_cons]
      omega
    | none =>
    simp only [hib] at hok
    cases hrp : matchRepeat (stripComment (pyStrip raw)) with
    | some cnt =>
      simp only [hrp] at hok
      injection hok with h; subst h
      refine ⟨rfl, fun hinv => ?_⟩
      show st.indent + 1 = (((str "repeat") :: st.stack).length : Int)
      simp only [List.length_cons]
      omega
    | none =>
    simp only [hrp] at hok
    cases hdf : matchDef (stripComment (pyStrip raw)) with
    | some pr =>
      obtain ⟨name, args⟩ := pr
      simp only [hdf] at hok
      injection hok with h; subst h
      refine ⟨rfl, fun hinv => ?_⟩
      show st.indent + 1 = (((str "def") :: st.stack).length : Int)
      simp only [List.length_cons]
      omega
    | none =>
    simp only [hdf] at hok
    cases hrt : matchReturn (stripComment (pyStrip raw)) with
    | some e =>
      simp only [hrt] at hok
      injection hok with h; subst h; exact ⟨rfl, id⟩
    | none =>
    simp only [hrt] at hok
    cases has : matchAssign (stripComment (pyStrip raw)) with
    | some pr =>
      obtain ⟨ident, e⟩ := pr
      simp only [has] at hok
      injection hok with h; subst h; exact ⟨rfl, id⟩
    | none =>
      simp only [has] at hok
      injection hok with h; subst h; exact ⟨rfl, id⟩

theorem listEmpty_eq {l : List Char} (h : l.isEmpty = true) : l = [] := by
  cases l with
  | nil => rfl
  | cons c t => simp [List.isEmpty] at h

theorem runLines_indentUnit : ∀ (ls : List (List Char)) (c : Compiler) (idx : Nat),
    ((runLines c idx ls).1).indentUnit = c.indentUnit := by
  intro ls
  induction ls with
  | nil => intro c idx; rfl
  | cons l rest ih =>
    intro c idx
    simp only [runLines]
    cases hcl : compileLine c l with
    | ok c' =>
      simp only [hcl]
      rw [ih c' (idx + 1)]
      exact (compileLineF_shape _ c l c' hcl).1
    | error e => simp only [hcl]

theorem compile_state_indentUnit (c : Compiler) (src : List Char)
    (fn : Option (List Char)) : ((compile c src fn).2).indentUnit = c.indentUnit := by
  simp only [compile]
  rcases hr : runLines { c with lines := [], indent := 0, stack := [] } 1
      (splitLines src) with ⟨c1, e⟩
  have h1 : c1.indentUnit = c.indentUnit := by
    have h2 := runLines_indentUnit (splitLines src)
      { c with lines := [], indent := 0, stack := [] } 1
    rw [hr] at h2
    exact h2
  cases e with
  | none =>
    by_cases hs : (c1.stack.isEmpty = true)
    · simp [hr, hs, h1]
    · simp [hr, hs, h1]
  | some pr => simp [hr, h1]

theorem compile_congr {a b : Compiler} (h : a.indentUnit = b.indentUnit)
    (src : List Char) (fn : Option (List Char)) :
    compile a src fn = compile b src fn := by
  have hr : ({ a with lines := [], indent := 0, stack := [] } : Compiler) =
      { b with lines := [], indent := 0, stack := [] } := by simp only [h]
  simp only [compile, hr]

theorem matchSayColon_head {line t : List Char} (h : matchSayColon line = some t) :
    ∃ c r, line = c :: r ∧ c.toLower = 's' := by
  simp only [matchSayColon] at h
  cases hsp : stripPrefixCI (str "say:") line with
  | none => simp [hsp] at h
  | some rest =>
    rw [show str "say:" = 's' :: str "ay:" from rfl] at hsp
    exact stripPrefixCI_head hsp

theorem matchIfThen_head {line : List Char} {pr : List Char × List Char}
    (h : matchIfThen line = some pr) : ∃ c r, line = c :: r ∧ c.toLower = 'i' := by
  simp only [matchIfThen, lazyKw] at h
  cases hsp : stripPrefixCI (str "if") line with
  | none => simp [hsp] at h
  | some rest =>
    rw [show str "if" = 'i' :: str "f" from rfl] at hsp
    exact stripPrefixCI_head hsp

theorem matchEnd_false_of_head {line : List Char} {c : Char} {r : List Char}
    (hl : line = c :: r) (hc : c.toLower ≠ 'e') : matchEnd line = false := by
  subst hl
  simp only [matchEnd]
  rw [show str "end" = 'e' :: str "nd" from rfl]
  simp only [List.map_cons]
  apply beq_eq_false_iff_ne.mpr
  simp only [ne_eq, List.cons.injEq, not_and]
  intro h'
  exact absurd h' hc

theorem matchSayColon_none_of_head {line : List Char} {c : Char} {r : List Char}
    (hl : line = c :: r) (hc : c.toLower ≠ 's') : matchSayColon line = none := by
  subst hl
  simp only [matchSayColon]
  rw [show str "say:" = 's' :: str "ay:" from rfl,
    stripPrefixCI_none (by simpa using hc)]

theorem matchSay_none_of_head {line : List Char} {c : Char} {r : List Char}
    (hl : line = c :: r) (hc : c.toLower ≠ 's') : matchSay line = none := by
  subst hl
  simp only [matchSay, kwExpr]
  rw [show str "say" = 's' :: str "ay" from rfl,
    stripPrefixCI_none (by simpa using hc)]

theorem stripComment_nil : stripComment ([] : List Char) = [] := rfl

theorem pyStrip_nonempty_of {raw : List Char} {P : List Char → Bool}
    (hP : P (stripComment (pyStrip raw)) = true) (hnil : P [] = false) :
    (pyStrip raw).isEmpty = false := by
  cases hpe : (pyStrip raw).isEmpty
  · rfl
  · rw [listEmpty_eq hpe, stripComment_nil] at hP
    rw [hP] at hnil
    exact absurd hnil (by simp)

theorem compileLineF_end_ok {fuel : Nat} {st : Compiler} {raw tg : List Char}
    {rest : List (List Char)} (hE : matchEnd (stripComment (pyStrip raw)) = true)
    (hs : st.stack = tg :: rest) :
    compileLineF (fuel + 1) st raw =
      .ok { st with stack := rest, indent := st.indent - 1 } := by
  have h0 : (pyStrip raw).isEmpty = false :=
    pyStrip_nonempty_of (P := matchEnd) hE rfl
  have h1 : (stripComment (pyStrip raw)).isEmpty = false := by
    cases hpe : (stripComment (pyStrip raw)).isEmpty
    · rfl
    · rw [listEmpty_eq hpe] at hE
      exact absurd hE (by decide)
  simp only [compileLineF]
  rw [if_neg (by simp [h0]), if_neg (by simp [h1]), if_pos hE, hs]

theorem compileLineF_end_err {fuel : Nat} {st : Compiler} {raw : List Char}
    (hE : matchEnd (stripComment (pyStrip raw)) = true) (hs : st.stack = []) :
    compileLineF (fuel + 1) st raw =
      .error ⟨.syntaxError, str "'end' with no open block"⟩ := by
  have h0 : (pyStrip raw).isEmpty = false :=
    pyStrip_nonempty_of (P := matchEnd) hE rfl
  have h1 : (stripComment (pyStrip raw)).isEmpty = false := by
    cases hpe : (stripComment (pyStrip raw)).isEmpty
    · rfl
    · rw [listEmpty_eq hpe] at hE
      exact absurd hE (by decide)
  simp only [compileLineF]
  rw [if_neg (by simp [h0]), if_neg (by simp [h1]), if_pos hE, hs]

theorem compileLineF_opener {fuel : Nat} {st : Compiler} {raw : List Char}
    (hO : isOpenerLine (stripComment (pyStrip raw)) = true) :
    ∃ tg st2, compileLineF (fuel + 1) st raw = .ok st2 ∧
      st2.stack = tg :: st.stack ∧ st2.indent = st.indent + 1 := by
  simp only [isOpenerLine, Bool.and_eq_true, Bool.not_eq_true',
    Option.isNone_iff_eq_none] at hO
  obtain ⟨⟨⟨⟨⟨hne, hnE⟩, hnsc⟩, hnsy⟩, hnit⟩, hdisj⟩ := hO
  have h0 : (pyStrip raw).isEmpty = false := by
    cases hpe : (pyStrip raw).isEmpty
    · rfl
    · rw [listEmpty_eq hpe, stripComment_nil] at hne
      simp [List.isEmpty] at hne
  simp only [compileLineF]
  rw [if_neg (by simp [h0]), if_neg (by simp [hne]), if_neg (by simp [hnE])]
  simp only [hnsc, hnsy, hnit]
  cases hib : matchIfBlock (stripComment (pyStrip raw)) with
  | some cond =>
    simp only [hib]
    exact ⟨str "if", ifOpen st cond, rfl, rfl, rfl⟩
  | none =>
    simp only [hib]
    cases hrp : matchRepeat (stripComment (pyStrip raw)) with
    | some cnt =>
      simp only [hrp]
      exact ⟨str "repeat",
        { emitLine st (str "for _ in range(int(" ++ txExpr cnt ++ str ")):") with
          indent := st.indent + 1, stack := str "repeat" :: st.stack },
        rfl, rfl, rfl⟩
    | none =>
      simp only [hrp]
      cases hdf : matchDef (stripComment (pyStrip raw)) with
      | some pr =>
        obtain ⟨name, args⟩ := pr
        simp only [hdf]
        exact ⟨str "def",
          { emitLine st (str "def " ++ name ++ str "(" ++ joinSep (str ", ") args
              ++ str "):") with
            indent := st.indent + 1, stack := str "def" :: st.stack },
          rfl, rfl, rfl⟩
      | none =>
        exfalso
        rw [hib, hrp, hdf] at hdisj
        simp at hdisj

theorem compileLineF_plain : ∀ (fuel : Nat) (st : Compiler) (raw : List Char),
    plainLine fuel raw = true →
    ∃ st2, compileLineF fuel st raw = .ok st2 ∧ st2.stack = st.stack ∧
      st2.indent = st.indent := by
  intro fuel
  induction fuel with
  | zero => intro st raw h; simp [plainLine] at h
  | succ fuel ih =>
    intro st raw h
    simp only [plainLine] at h
    simp only [compileLineF]
    by_cases h0 : ((pyStrip raw).isEmpty = true)
    · rw [if_pos h0]
      exact ⟨st, rfl, rfl, rfl⟩
    rw [if_neg h0] at h ⊢
    by_cases h1 : ((stripComment (pyStrip raw)).isEmpty = true)
    · rw [if_pos h1]
      exact ⟨st, rfl, rfl, rfl⟩
    rw [if_neg h1] at h ⊢
    by_cases h2 : (matchEnd (stripComment (pyStrip raw)) = true)
    · rw [if_pos h2] at h
      exact absurd h (by simp)
    rw [if_neg h2] at h ⊢
    cases hsc : matchSayColon (stripComment (pyStrip raw)) with
    | some inner =>
      simp only [hsc]
      exact ⟨sayF st inner, rfl, rfl, rfl⟩
    | none =>
    simp only [hsc] at h ⊢
    cases hsy : matchSay (stripComment (pyStrip raw)) with
    | some e =>
      simp only [hsy]
      exact ⟨emitLine st (str "print(" ++ txExpr e ++ str ")"), rfl, rfl, rfl⟩
    | none =>
    simp only [hsy] at h ⊢
    cases hit : matchIfThen (stripComment (pyStrip raw)) with
    | some pr =>
      obtain ⟨cond, stmt⟩ := pr
      simp only [hit] at h ⊢
      obtain ⟨st2, hok, hstk, hind⟩ := ih (ifOpen st cond) (pyStrip stmt) h
      have hstk' : st2.stack = str "if" :: st.stack := hstk
      have hind' : st2.indent = st.indent + 1 := hind
      simp only [hok, hstk']
      refine ⟨{ st2 with stack := st.stack, indent := st2.indent - 1 }, rfl, rfl, ?_⟩
      show st2.indent - 1 = st.indent
      omega
    | none =>
    simp only [hit] at h ⊢
    cases hib : matchIfBlock (stripComment (pyStrip raw)) with
    | some cond =>
      rw [hib] at h
      exact absurd h (by simp)
    | none =>
    simp only [hib] at h ⊢
    cases hrp : matchRepeat (stripComment (pyStrip raw)) with
    | some cnt =>
      rw [hrp] at h
      exact absurd h (by simp)
    | none =>
    simp only [hrp] at h ⊢
    cases hdf : matchDef (stripComment (pyStrip raw)) with
    | some pr =>
      rw [hdf] at h
      exact absurd h (by simp)
    | none =>
    simp only [hdf] at h ⊢
    cases hrt : matchReturn (stripComment (pyStrip raw)) with
    | some e =>
      simp only [hrt]
      exact ⟨emitLine st (str "return " ++ txExpr e), rfl, rfl, rfl⟩
    | none =>
    simp only [hrt]
    cases has : matchAssign (stripComment (pyStrip raw)) with
    | some pr =>
      obtain ⟨ident, e⟩ := pr
      simp only [has]
      exact ⟨emitLine st (ident ++ str " = " ++ txExpr e), rfl, rfl, rfl⟩
    | none =>
      simp only [has]
      exact ⟨emitLine st raw, rfl, rfl, rfl⟩

theorem runLines_wf : ∀ (ls : List (List Char)) (c : Compiler) (idx d : Nat),
    wellFormedLines d ls = true → c.stack.length = d → c.indent = (d : Int) →
    ∃ c', runLines c idx ls = (c', none) ∧ c'.stack = [] ∧ c'.indent = 0 := by
  intro ls
  induction ls with
  | nil =>
    intro c idx d hwf hdl hdi
    have hd0 : d = 0 := by simpa [wellFormedLines] using hwf
    subst hd0
    exact ⟨c, rfl, List.length_eq_zero.mp hdl, by simpa using hdi⟩
  | cons l ls ih =>
    intro c idx d hwf hdl hdi
    simp only [wellFormedLines] at hwf
    by_cases hE : (matchEnd (stripComment (pyStrip l)) = true)
    · rw [if_pos hE] at hwf
      rw [Bool.and_eq_true, decide_eq_true_eq] at hwf
      obtain ⟨hd0, hwf'⟩ := hwf
      cases hcs : c.stack with
      | nil => rw [hcs] at hdl; simp at hdl; omega
      | cons tg rest =>
        have hok : compileLine c l =
            .ok { c with stack := rest, indent := c.indent - 1 } :=
          @compileLineF_end_ok l.length c l tg rest hE hcs
        have hlen : rest.length = d - 1 := by
          rw [hcs] at hdl; simp only [List.length_cons] at hdl; omega
        obtain ⟨c', hrun, hstk, hind⟩ :=
          ih { c with stack := rest, indent := c.indent - 1 } (idx + 1) (d - 1)
            hwf' hlen (by show c.indent - 1 = ((d - 1 : Nat) : Int); omega)
        exact ⟨c', by simp only [runLines, hok]; exact hrun, hstk, hind⟩
    rw [if_neg hE] at hwf
    by_cases hO : (isOpenerLine (stripComment (pyStrip l)) = true)
    · rw [if_pos hO] at hwf
      obtain ⟨tg, st2, hok, hstk, hind⟩ :=
        @compileLineF_opener l.length c l hO
      have hok' : compileLine c l = .ok st2 := hok
      obtain ⟨c', hrun, hstk', hind'⟩ := ih st2 (idx + 1) (d + 1) hwf
        (by rw [hstk]; simp only [List.length_cons]; omega)
        (by rw [hind]; omega)
      exact ⟨c', by simp only [runLines, hok']; exact hrun, hstk', hind'⟩
    rw [if_neg hO, Bool.and_eq_true] at hwf
    obtain ⟨hpl, hwf'⟩ := hwf
    obtain ⟨st2, hok, hstk, hind⟩ := compileLineF_plain (l.length + 1) c l hpl
    have hok' : compileLine c l = .ok st2 := hok
    obtain ⟨c', hrun, hstk', hind'⟩ := ih st2 (idx + 1) d hwf'
      (by rw [hstk]; exact hdl) (by rw [hind]; exact hdi)
    exact ⟨c', by simp only [runLines, hok']; exact hrun, hstk', hind'⟩

theorem concatMap_append (f : Char → List Char) (xs ys : List Char) :
    concatMap f (xs ++ ys) = concatMap f xs ++ concatMap f ys := by
  induction xs with
  | nil => rfl
  | cons c rest ih => simp [concatMap, ih]

theorem replaceAllF_single (a : Char) (rep : List Char) :
    ∀ (fuel : Nat) (s : List Char), s.length ≤ fuel →
    replaceAllF [a] rep fuel s =
      concatMap (fun c => if a == c then rep else [c]) s := by
  intro fuel
  induction fuel with
  | zero =>
    intro s hs
    cases s with
    | nil => rfl
    | cons c rest => simp at hs
  | succ fuel ih =>
    intro s hs
    cases s with
    | nil => rfl
    | cons c rest =>
      have hlen : rest.length ≤ fuel := by
        simp only [List.length_cons] at hs; omega
      simp only [replaceAllF, concatMap]
      have hcond : (!List.isEmpty [a] && leadsWith [a] (c :: rest)) = (a == c) := by
        simp [leadsWith]
      rw [hcond]
      by_cases hc : ((a == c) = true)
      · rw [if_pos hc, if_pos hc,
          show (c :: rest).drop [a].length = rest from rfl, ih rest hlen]
      · rw [if_neg hc, if_neg hc, ih rest hlen]
        rfl

theorem concatMap_concatMap (f g : Char → List Char) (s : List Char) :
    concatMap g (concatMap f s) = concatMap (fun c => concatMap g (f c)) s := by
  induction s with
  | nil => rfl
  | cons c rest ih => simp [concatMap, concatMap_append, ih]

theorem escapeOnce_concatMap (s : List Char) : escapeOnce s = concatMap escChar s := by
  unfold escapeOnce replaceAll
  rw [show str "\\" = ['\\'] from rfl, show str "\"" = ['"'] from rfl]
  rw [replaceAllF_single '\\' (str "\\\\") s.length s (le_refl _)]
  rw [replaceAllF_single '"' (str "\\\"") _ _ (le_refl _)]
  rw [concatMap_concatMap]
  congr 1
  funext c
  by_cases h1 : c = '\\'
  · subst h1; rfl
  by_cases h2 : c = '"'
  · subst h2; rfl
  have e1 : ('\\' == c) = false := beq_eq_false_iff_ne.mpr (Ne.symm h1)
  have e2 : ('"' == c) = false := beq_eq_false_iff_ne.mpr (Ne.symm h2)
  have e3 : (c == '\\') = false := beq_eq_false_iff_ne.mpr h1
  have e4 : (c == '"') = false := beq_eq_false_iff_ne.mpr h2
  simp only [concatMap, escChar, e1, e2, e3, e4, Bool.false_eq_true, if_false,
    List.append_nil]

theorem stripCommentTok_some {tok line r : List Char}
    (h : stripCommentTok tok line = some r) :
    ∃ head tail, line = head ++ tok ++ tail ∧ evenQuotes head = true ∧
      r = trimRight head := by
  simp only [stripCommentTok] at h
  cases hsp : splitFirst tok line with
  | none => rw [hsp] at h; simp at h
  | some pr =>
    obtain ⟨head, tail⟩ := pr
    simp only [hsp] at h
    by_cases hev : (evenQuotes head = true)
    · rw [if_pos hev] at h
      refine ⟨head, tail, splitFirst_eq hsp, hev, ?_⟩
      injection h with h'
      exact h'.symm
    · rw [if_neg hev] at h
      exact absurd h (by simp)

theorem runLines_append : ∀ (xs : List (List Char)) (c : Compiler) (idx : Nat)
    (ys : List (List Char)) (c1 : Compiler),
    runLines c idx xs = (c1, none) →
    runLines c idx (xs ++ ys) = runLines c1 (idx + xs.length) ys := by
  intro xs
  induction xs with
  | nil =>
    intro c idx ys c1 h
    injection h with h1 h2
    subst h1
    simp [runLines]
  | cons l rest ih =>
    intro c idx ys c1 h
    simp only [runLines] at h
    simp only [List.cons_append, runLines]
    cases hcl : compileLine c l with
    | ok c' =>
      simp only [hcl] at h ⊢
      rw [show (rest.append ys) = rest ++ ys from rfl, ih c' (idx + 1) ys c1 h]
      rw [show idx + 1 + rest.length = idx + (l :: rest).length from by
        simp only [List.length_cons]; omega]
    | error e =>
      simp only [hcl] at h
      injection h with h1 h2
      exact absurd h2 (by simp)

/-
  Claim theorems.
-/

/-- Claim C1 (code bug): the source's `COMPARATORS` list (line 9) places
    `equals` BEFORE `not equals`, so the `equals` substitution fires inside
    the phrase `not equals` first and the expression `x not equals 1`
    rewrites to `x not == 1`; the claimed result `x != 1` is not produced. -/
theorem txExpr_not_equals_mis_split :
    txExpr (str "x not equals 1") = str "x not == 1" ∧
    txExpr (str "x not equals 1") ≠ str "x != 1" :=
  ⟨rfl, by decide⟩

/-- Claim C2 (counterexample): the line `if x then repeat 2 times` is
    processed without raising, yet it leaves the block stack holding `if`
    and the indent at 1 — the pop of the inline if-then rule removes the
    `repeat` tag pushed by its nested statement, not the `if` tag the rule
    itself pushed, so the net effect on observable state is not zero. -/
theorem ifThen_nested_opener_cex :
    compileLine (mkMonthy (str "    ")) (str "if x then repeat 2 times") =
      .ok ⟨str "    ", [str "if x:", str "    for _ in range(int(2)):"], 1,
        [str "if"]⟩ := rfl

/-- Claim C2 (amended): the inline if-then rule opens a block, compiles the
    nested statement, and closes the block within the same call, with zero
    net effect on the block stack and the indent level, PROVIDED the nested
    statement's own processing (from the just-opened state) returns without
    raising and itself leaves stack and indent unchanged — which holds for
    every say/return/assignment/passthrough nested statement, but not for a
    nested `end` or a nested block opener (`ifThen_nested_opener_cex`). -/
theorem ifThen_neutral_stmt_zero_net_effect
    (fuel : Nat) (st : Compiler) (raw cond stmt : List Char) (st2 : Compiler)
    (hmatch : matchIfThen (stripComment (pyStrip raw)) = some (cond, stmt))
    (hrec : compileLineF fuel (ifOpen st cond) (pyStrip stmt) = .ok st2)
    (hstk : st2.stack = (ifOpen st cond).stack)
    (hind : st2.indent = (ifOpen st cond).indent) :
    compileLineF (fuel + 1) st raw =
      .ok { st2 with stack := st.stack, indent := st.indent } := by
  obtain ⟨ch, r, hl, hc⟩ := matchIfThen_head hmatch
  have hE : matchEnd (stripComment (pyStrip raw)) = false :=
    matchEnd_false_of_head hl (by rw [hc]; decide)
  have hsc : matchSayColon (stripComment (pyStrip raw)) = none :=
    matchSayColon_none_of_head hl (by rw [hc]; decide)
  have hsy : matchSay (stripComment (pyStrip raw)) = none :=
    matchSay_none_of_head hl (by rw [hc]; decide)
  have h0 : (pyStrip raw).isEmpty = false := by
    cases hpe : (pyStrip raw).isEmpty
    · rfl
    · rw [listEmpty_eq hpe, stripComment_nil] at hl
      exact absurd hl (by simp)
  have h1 : (stripComment (pyStrip raw)).isEmpty = false := by rw [hl]; rfl
  simp only [compileLineF]
  rw [if_neg (by simp [h0]), if_neg (by simp [h1]), if_neg (by simp [hE])]
  simp only [hsc, hsy, hmatch, hrec]
  have hstk' : st2.stack = str "if" :: st.stack := hstk
  have hind' : st2.indent = st.indent + 1 := hind
  simp only [hstk']
  rw [show st2.indent - 1 = st.indent from by omega]

/-- Witness for `ifThen_neutral_stmt_zero_net_effect`: the line
    `if x then say x` on a fresh compiler has zero net stack/indent effect. -/
theorem ifThen_neutral_stmt_zero_net_effect_witness :
    matchIfThen (stripComment (pyStrip (str "if x then say x"))) =
      some (str "x", str "say x") ∧
    compileLineF 16 (ifOpen (mkMonthy (str "    ")) (str "x"))
        (pyStrip (str "say x")) =
      .ok ⟨str "    ", [str "if x:", str "    print(x)"], 1, [str "if"]⟩ ∧
    compileLineF 17 (mkMonthy (str "    ")) (str "if x then say x") =
      .ok ⟨str "    ", [str "if x:", str "    print(x)"], 0, []⟩ :=
  ⟨rfl, rfl, ifThen_neutral_stmt_zero_net_effect 16 (mkMonthy (str "    "))
    (str "if x then say x") (str "x") (str "say x")
    ⟨str "    ", [str "if x:", str "    print(x)"], 1, [str "if"]⟩
    rfl rfl rfl rfl⟩

/-- Claim C3: from any state satisfying `indent_level == len(block_stack)`,
    processing one source line (including any recursive inline if-then
    expansion) that completes without raising preserves the invariant, and
    the resulting indent level is not negative. -/
theorem compileLine_preserves_invariant (st : Compiler) (raw : List Char)
    (st' : Compiler) (hinv : st.indent = (st.stack.length : Int))
    (hok : compileLine st raw = .ok st') :
    st'.indent = (st'.stack.length : Int) ∧ 0 ≤ st'.indent := by
  have h := (compileLineF_shape (raw.length + 1) st raw st' hok).2 hinv
  exact ⟨h, by omega⟩

/-- Witness for `compileLine_preserves_invariant` on the line `say hi`. -/
theorem compileLine_preserves_invariant_witness :
    (mkMonthy (str "  ")).indent = ((mkMonthy (str "  ")).stack.length : Int) ∧
    compileLine (mkMonthy (str "  ")) (str "say hi") =
      .ok ⟨str "  ", [str "print(hi)"], 0, []⟩ ∧
    ((⟨str "  ", [str "print(hi)"], 0, []⟩ : Compiler).indent =
        (((⟨str "  ", [str "print(hi)"], 0, []⟩ : Compiler).stack.length : Int)) ∧
      0 ≤ (⟨str "  ", [str "print(hi)"], 0, []⟩ : Compiler).indent) :=
  ⟨rfl, rfl, compileLine_preserves_invariant (mkMonthy (str "  "))
    (str "say hi") ⟨str "  ", [str "print(hi)"], 0, []⟩ rfl rfl⟩

/-- Claim C4: if every line processes without raising and the block stack is
    nonempty afterwards, `compile` fails with the MissingEnd `SyntaxError`
    whose message lists the still-open block kinds outermost first, joined by
    `' > '`, and no compiled text is returned. -/
theorem compile_missing_end_lists_open_blocks (c : Compiler) (src : List Char)
    (fn : Option (List Char)) (c1 : Compiler)
    (hrun : runLines { c with lines := [], indent := 0, stack := [] } 1
      (splitLines src) = (c1, none))
    (hne : c1.stack ≠ []) :
    (compile c src fn).1 = .error ⟨.syntaxError,
      str "Missing 'end' for: " ++ joinSep (str " > ") c1.stack.reverse⟩ := by
  have hf : c1.stack.isEmpty = false := by
    cases hcs : c1.stack with
    | nil => exact absurd hcs hne
    | cons a b => rfl
  simp only [compile, hrun]
  rw [if_neg (by simp [hf])]

/-- Witness for `compile_missing_end_lists_open_blocks`: two unclosed blocks
    are reported outermost first as `if > repeat`. -/
theorem compile_missing_end_witness :
    runLines { (mkMonthy (str "    ")) with lines := [], indent := 0, stack := [] }
      1 (splitLines (str "if x\nrepeat 2 times")) =
      (⟨str "    ", [str "if x:", str "    for _ in range(int(2)):"], 2,
        [str "repeat", str "if"]⟩, none) ∧
    (compile (mkMonthy (str "    ")) (str "if x\nrepeat 2 times") none).1 =
      .error ⟨.syntaxError, str "Missing 'end' for: " ++
        joinSep (str " > ")
          ((⟨str "    ", [str "if x:", str "    for _ in range(int(2)):"], 2,
            [str "repeat", str "if"]⟩ : Compiler)).stack.reverse⟩ :=
  ⟨rfl, compile_missing_end_lists_open_blocks (mkMonthy (str "    "))
    (str "if x\nrepeat 2 times") none
    ⟨str "    ", [str "if x:", str "    for _ in range(int(2)):"], 2,
      [str "repeat", str "if"]⟩ rfl (by simp)⟩

/-- Claim C5: a bare `end` line reached with no open block makes `compile`
    fail with the UnexpectedEnd `SyntaxError`, whose surfaced message is the
    raw message decorated with the filename label and the 1-based line
    number in the format `<message> (at <label>:<line>)`. -/
theorem compile_unexpected_end_located (c : Compiler) (src : List Char)
    (fn : Option (List Char)) (pre : List (List Char)) (L : List Char)
    (post : List (List Char)) (c1 : Compiler)
    (hsplit : splitLines src = pre ++ L :: post)
    (hpre : runLines { c with lines := [], indent := 0, stack := [] } 1 pre =
      (c1, none))
    (hstk : c1.stack = [])
    (hend : matchEnd (stripComment (pyStrip L)) = true) :
    (compile c src fn).1 = .error ⟨.syntaxError,
      str "'end' with no open block" ++ str " (at " ++ fnLabel fn ++ str ":" ++
        natChars (pre.length + 1) ++ str ")"⟩ := by
  have herr : compileLine c1 L =
      .error ⟨.syntaxError, str "'end' with no open block"⟩ :=
    @compileLineF_end_err L.length c1 L hend hstk
  have hrun : runLines { c with lines := [], indent := 0, stack := [] } 1
      (splitLines src) =
      (c1, some (⟨.syntaxError, str "'end' with no open block"⟩, 1 + pre.length)) := by
    rw [hsplit, runLines_append pre _ 1 (L :: post) c1 hpre]
    simp only [runLines, herr]
  simp only [compile, hrun, decorate]
  rw [show 1 + pre.length = pre.length + 1 from Nat.add_comm 1 pre.length]

/-- Witness for `compile_unexpected_end_located`: input `say a` / `end`
    fails at line 2 with the decorated UnexpectedEnd message. -/
theorem compile_unexpected_end_witness :
    splitLines (str "say a\nend") = [str "say a"] ++ (str "end") :: [] ∧
    runLines { (mkMonthy (str "    ")) with lines := [], indent := 0, stack := [] }
      1 [str "say a"] = (⟨str "    ", [str "print(a)"], 0, []⟩, none) ∧
    ((⟨str "    ", [str "print(a)"], 0, []⟩ : Compiler)).stack = [] ∧
    matchEnd (stripComment (pyStrip (str "end"))) = true ∧
    (compile (mkMonthy (str "    ")) (str "say a\nend") none).1 =
      .error ⟨.syntaxError, str "'end' with no open block" ++ str " (at " ++
        fnLabel none ++ str ":" ++ natChars ([str "say a"].length + 1) ++ str ")"⟩ :=
  ⟨rfl, rfl, rfl, rfl, compile_unexpected_end_located (mkMonthy (str "    "))
    (str "say a\nend") none [str "say a"] (str "end") []
    ⟨str "    ", [str "print(a)"], 0, []⟩ rfl rfl rfl rfl⟩

/-- Claim C6 (counterexample): in `repeat 2 times` / `if x then end` / `end`
    the only block-opening construct (the repeat) has a matching `end` line
    under the claim's reading (`naiveBalanced` holds at depth 0), yet
    compilation fails with UnexpectedEnd at line 3: the inline if-then pop
    on line 2 silently consumes the open `repeat` block after its nested
    `end` popped the freshly pushed `if` tag. -/
theorem balanced_openers_compile_cex :
    naiveBalanced 0 (splitLines (str "repeat 2 times\nif x then end\nend")) = true ∧
    (compile (mkMonthy (str "    "))
        (str "repeat 2 times\nif x then end\nend") none).1 =
      .error ⟨.syntaxError, str "'end' with no open block (at <string>:3)"⟩ :=
  ⟨rfl, rfl⟩

/-- Claim C6 (amended): for every input whose block-opening lines and `end`
    lines are bracket-balanced AND whose remaining lines are neutral in the
    sense of `plainLine` — in particular no inline if-then carries a nested
    `end` or a nested block opener — `compile` succeeds and the final indent
    level is 0.  (Without the neutrality proviso the claim is refuted by
    `balanced_openers_compile_cex`.) -/
theorem wellFormed_compile_succeeds (c : Compiler) (src : List Char)
    (fn : Option (List Char))
    (hwf : wellFormedLines 0 (splitLines src) = true) :
    ∃ out, (compile c src fn).1 = .ok out ∧ (compile c src fn).2.indent = 0 := by
  obtain ⟨c', hrun, hstk, hind⟩ := runLines_wf (splitLines src)
    { c with lines := [], indent := 0, stack := [] } 1 0 hwf rfl rfl
  refine ⟨joinSep ['\n'] c'.lines ++ ['\n'], ?_, ?_⟩
  · simp only [compile, hrun]
    rw [if_pos (by simp [hstk])]
  · simp only [compile, hrun]
    rw [if_pos (by simp [hstk])]
    exact hind

/-- Witness for `wellFormed_compile_succeeds` on a balanced three-line
    program. -/
theorem wellFormed_compile_succeeds_witness :
    wellFormedLines 0 (splitLines (str "if x equals 1\nsay x\nend")) = true ∧
    ∃ out, (compile (mkMonthy (str "    "))
        (str "if x equals 1\nsay x\nend") none).1 = .ok out ∧
      (compile (mkMonthy (str "    "))
        (str "if x equals 1\nsay x\nend") none).2.indent = 0 :=
  ⟨rfl, wellFormed_compile_succeeds (mkMonthy (str "    "))
    (str "if x equals 1\nsay x\nend") none rfl⟩

/-- Claim C7: whenever the comment stripper truncates a line, the truncation
    point is a `#` or `//` marker whose preceding text has an even number of
    single quotes and an even number of double quotes, and the result is the
    right-trimmed head; in particular `say "a # b"` is left untouched while
    `say x # comment` becomes `say x`. -/
theorem stripComment_even_parity :
    (∀ line : List Char, stripComment line ≠ line →
      ∃ tok head tail, (tok = str "#" ∨ tok = str "//") ∧
        line = head ++ tok ++ tail ∧ evenQuotes head = true ∧
        stripComment line = trimRight head) ∧
    stripComment (str "say \"a # b\"") = str "say \"a # b\"" ∧
    stripComment (str "say x # comment") = str "say x" := by
  refine ⟨?_, rfl, rfl⟩
  intro line hne
  cases h1 : stripCommentTok (str "#") line with
  | some r =>
    obtain ⟨head, tail, heq, hev, hr⟩ := stripCommentTok_some h1
    exact ⟨str "#", head, tail, Or.inl rfl, heq, hev,
      by simp only [stripComment, h1, hr]⟩
  | none =>
    cases h2 : stripCommentTok (str "//") line with
    | some r =>
      obtain ⟨head, tail, heq, hev, hr⟩ := stripCommentTok_some h2
      exact ⟨str "//", head, tail, Or.inr rfl, heq, hev,
        by simp only [stripComment, h1, h2, hr]⟩
    | none =>
      exact absurd (by simp only [stripComment, h1, h2]) hne

/-- Witness for `stripComment_even_parity` at the line `say x # comment`. -/
theorem stripComment_even_parity_witness :
    stripComment (str "say x # comment") ≠ str "say x # comment" ∧
    ∃ tok head tail, (tok = str "#" ∨ tok = str "//") ∧
      str "say x # comment" = head ++ tok ++ tail ∧ evenQuotes head = true ∧
      stripComment (str "say x # comment") = trimRight head :=
  ⟨by decide, stripComment_even_parity.1 (str "say x # comment") (by decide)⟩

/-- Claim C8: a `say:` line emits `print(f"...")` in which the rewritten
    text is escaped exactly once, character by character: a backslash
    becomes a doubled backslash, a double quote gains a single backslash,
    and every other character — brace characters and brace-embedded
    expressions included — passes through verbatim (`escChar` alters
    nothing but backslash and double quote). -/
theorem sayColon_escapes_exactly_once (st : Compiler) (raw t : List Char)
    (h : matchSayColon (stripComment (pyStrip raw)) = some t) :
    compileLine st raw = .ok (emitLine st
      (str "print(f\"" ++ concatMap escChar (txExpr t) ++ str "\")")) ∧
    ∀ c : Char, escChar c ≠ [c] → c = '\\' ∨ c = '"' := by
  constructor
  · obtain ⟨ch, r, hl, hc⟩ := matchSayColon_head h
    have hE : matchEnd (stripComment (pyStrip raw)) = false :=
      matchEnd_false_of_head hl (by rw [hc]; decide)
    have h0 : (pyStrip raw).isEmpty = false := by
      cases hpe : (pyStrip raw).isEmpty
      · rfl
      · rw [listEmpty_eq hpe, stripComment_nil] at hl
        exact absurd hl (by simp)
    have h1 : (stripComment (pyStrip raw)).isEmpty = false := by rw [hl]; rfl
    show compileLineF (raw.length + 1) st raw = _
    simp only [compileLineF]
    rw [if_neg (by simp [h0]), if_neg (by simp [h1]), if_neg (by simp [hE])]
    simp only [h, sayF, escapeOnce_concatMap]
  · intro c hc
    by_cases h1 : c = '\\'
    · exact Or.inl h1
    by_cases h2 : c = '"'
    · exact Or.inr h2
    exfalso
    apply hc
    simp [escChar, beq_eq_false_iff_ne.mpr h1, beq_eq_false_iff_ne.mpr h2]

/-- Witness for `sayColon_escapes_exactly_once` at a text with a literal
    backslash and a literal double quote. -/
theorem sayColon_escapes_exactly_once_witness :
    matchSayColon (stripComment (pyStrip (str "say: a \\ b \" c"))) =
      some (str "a \\ b \" c") ∧
    (compileLine (mkMonthy (str "    ")) (str "say: a \\ b \" c") =
      .ok (emitLine (mkMonthy (str "    "))
        (str "print(f\"" ++ concatMap escChar (txExpr (str "a \\ b \" c")) ++
          str "\")")) ∧
    ∀ c : Char, escChar c ≠ [c] → c = '\\' ∨ c = '"') :=
  ⟨rfl, sayColon_escapes_exactly_once (mkMonthy (str "    "))
    (str "say: a \\ b \" c") (str "a \\ b \" c") rfl⟩

/-- Claim C9: `compile` resets the output buffer, the indent level and the
    block stack at the start of every call, so on any instance the result of
    compiling a second input after an earlier call (succeeded or failed)
    equals the result on a fresh instance with the same `indent_unit`. -/
theorem compile_reset_between_runs (c : Compiler) (src1 : List Char)
    (fn1 : Option (List Char)) (src2 : List Char) (fn2 : Option (List Char)) :
    (compile (compile c src1 fn1).2 src2 fn2).1 =
      (compile (mkMonthy c.indentUnit) src2 fn2).1 := by
  rw [compile_congr (a := (compile c src1 fn1).2) (b := mkMonthy c.indentUnit)
    (by rw [compile_state_indentUnit]; rfl) src2 fn2]

/-- Claim C10 (implicit): for each marker the comment stripper inspects only
    the FIRST occurrence; when the first `#` and the first `//` both fail
    the quote-parity test, the line is passed on unchanged, even if a later
    occurrence of the same marker would pass the test. -/
theorem stripComment_first_marker_only :
    ∀ line : List Char,
    (∀ head tail, splitFirst (str "#") line = some (head, tail) →
      evenQuotes head = false) →
    (∀ head tail, splitFirst (str "//") line = some (head, tail) →
      evenQuotes head = false) →
    stripComment line = line := by
  intro line hA hB
  have h1 : stripCommentTok (str "#") line = none := by
    simp only [stripCommentTok]
    cases hsp : splitFirst (str "#") line with
    | none => rfl
    | some pr =>
      obtain ⟨head, tail⟩ := pr
      show (if evenQuotes head = true then some (trimRight head) else none) = none
      rw [if_neg (by simp [hA head tail hsp])]
  have h2 : stripCommentTok (str "//") line = none := by
    simp only [stripCommentTok]
    cases hsp : splitFirst (str "//") line with
    | none => rfl
    | some pr =>
      obtain ⟨head, tail⟩ := pr
      show (if evenQuotes head = true then some (trimRight head) else none) = none
      rw [if_neg (by simp [hB head tail hsp])]
  simp only [stripComment, h1, h2]

/-- Witness for `stripComment_first_marker_only`: in `'#'x # y` the first
    `#` sits behind an odd number of single quotes, so the line is returned
    unchanged although the second `#` has even quote parity before it. -/
theorem stripComment_first_marker_only_witness :
    stripComment (str "'#'x # y") = str "'#'x # y" ∧
    ∃ h2 t2, str "'#'x # y" = h2 ++ str "#" ++ t2 ∧ evenQuotes h2 = true :=
  ⟨stripComment_first_marker_only (str "'#'x # y")
    (by
      intro head tail h
      rw [show splitFirst (str "#") (str "'#'x # y") =
        some (str "'", str "'x # y") from rfl] at h
      injection h with h'
      injection h' with ha hb
      rw [← ha]
      rfl)
    (by
      intro head tail h
      rw [show splitFirst (str "//") (str "'#'x # y") = none from rfl] at h
      exact absurd h (by simp)),
   ⟨str "'#'x ", str " y", rfl, rfl⟩⟩

end Monthy
